import Mathlib

/-!
Verification of the MindexDB storage engine (mindexdb.js), a Redis-like
wrapper over four independently transactable partitions: `keyValue` (scalar),
`hash`, `list` and `expiry`.  Each partition is modelled as a partial map from
the user-visible key string to the record stored there; the public operations
are translated from the source as pure state transformers (the IndexedDB
transaction plumbing resolves each request with the record or `undefined`,
which we model as `Option`; backend/transaction failures are outside the
claims considered here).  `Date.now()` is passed explicitly as a `now`
argument where the source reads the clock.
-/

/-- A partition of the backend: a partial map from key strings to records.
`none` models the absence of a record (`undefined` from `store.get`). -/
def Store (α : Type) : Type := String → Option α

namespace Store

/-- Source `store.put(value, key)`: upsert the record at `k`. -/
def put (s : Store α) (k : String) (v : α) : Store α :=
  fun k' => if k' = k then some v else s k'

/-- Source `store.delete(key)`: remove the record at `k` (no-op when absent). -/
def remove (s : Store α) (k : String) : Store α :=
  fun k' => if k' = k then none else s k'

/-- Source `store.count(key)`: number of records at exactly key `k` (0 or 1). -/
def count (s : Store α) (k : String) : Nat :=
  match s k with
  | some _ => 1
  | none => 0

theorem put_same (s : Store α) (k : String) (v : α) : put s k v k = some v := by
  simp [put]

theorem remove_same (s : Store α) (k : String) : remove s k k = none := by
  simp [remove]

end Store

/-- The whole database state: the four object stores created in
`_connectDB` (`keyValue`, `hash`, `list`, `expiry`).  A hash record is itself
a partial map from field names to values; a list record is a sequence; an
expiry record stores the absolute `expireAt` instant in milliseconds
(the `{key, expireAt}` object keyed by `key`). -/
structure DBState (α : Type) where
  keyValue : Store α
  hash : Store (Store α)
  list : Store (List α)
  expiry : Store Int

/-- The empty database: all four stores hold no records. -/
def DBState.empty (α : Type) : DBState α :=
  ⟨fun _ => none, fun _ => none, fun _ => none, fun _ => none⟩

namespace MindexDB

variable {α : Type}

/-- Source `set(key, value)`: `store.put(value, key)` on the `keyValue` partition. -/
def set (s : DBState α) (k : String) (v : α) : DBState α :=
  ⟨s.keyValue.put k v, s.hash, s.list, s.expiry⟩

/-- Source `get(key)`: `store.get(key)` on the `keyValue` partition. -/
def get (s : DBState α) (k : String) : Option α :=
  s.keyValue k

/-- Source `hset(hash, key, value)`: load the hash record (`request.result || {}`),
set the field, write the whole record back. -/
def hset (s : DBState α) (h k : String) (v : α) : DBState α :=
  let hashObj : Store α := (s.hash h).getD (fun _ => none)
  ⟨s.keyValue, s.hash.put h (hashObj.put k v), s.list, s.expiry⟩

/-- Source `hget(hash, key)`: load the hash record; resolve `hashObj[key]` when the
record exists and `key in hashObj`, else resolve `null`. -/
def hget (s : DBState α) (h k : String) : Option α :=
  match s.hash h with
  | some hashObj => hashObj k
  | none => none

/-- Source `lpush(key, ...values)`: load the list (`[]` when not an array),
`list.unshift(...values)` — the arguments are prepended as a block in their
given order — write back, resolve the new length. -/
def lpush (s : DBState α) (k : String) (vs : List α) : Nat × DBState α :=
  let l := (s.list k).getD []
  let newList := vs ++ l
  (newList.length, ⟨s.keyValue, s.hash, s.list.put k newList, s.expiry⟩)

/-- Source `rpush(key, ...values)`: load the list, `list.push(...values)` appends the
arguments in order, write back, resolve the new length. -/
def rpush (s : DBState α) (k : String) (vs : List α) : Nat × DBState α :=
  let l := (s.list k).getD []
  let newList := l ++ vs
  (newList.length, ⟨s.keyValue, s.hash, s.list.put k newList, s.expiry⟩)

/-- Source `lpop(key)`: when the record is absent or the list empty, resolve `null`
without writing; else `list.shift()` removes the head, the shortened list is
written back and the removed element resolved. -/
def lpop (s : DBState α) (k : String) : Option α × DBState α :=
  match s.list k with
  | none => (none, s)
  | some [] => (none, s)
  | some (x :: xs) => (some x, ⟨s.keyValue, s.hash, s.list.put k xs, s.expiry⟩)

/-- Source `rpop(key)`: when the record is absent or the list empty, resolve `null`
without writing; else `list.pop()` removes the last element, the shortened
list is written back and the removed element resolved. -/
def rpop (s : DBState α) (k : String) : Option α × DBState α :=
  match s.list k with
  | none => (none, s)
  | some l =>
      if l.length = 0 then (none, s)
      else (l.getLast?, ⟨s.keyValue, s.hash, s.list.put k l.dropLast, s.expiry⟩)

/-- JavaScript `Array.prototype.slice(start, end)` for integer arguments on a
list of length `L`: a negative index counts from the end and clamps at 0, a
positive one clamps at `L`; the result is the elements from the resolved
start (inclusive) to the resolved end (exclusive). -/
def jsSlice (l : List α) (start stop : Int) : List α :=
  let L : Int := l.length
  let s : Int := if start < 0 then max (L + start) 0 else min start L
  let e : Int := if stop < 0 then max (L + stop) 0 else min stop L
  (l.take e.toNat).drop s.toNat

/-- Source `lrange(key, start, stop)`: resolve `[]` when the record is not an array;
else adjust a negative `stop` by `list.length + stop + 1` (and a non-negative
one by `stop + 1`) and resolve `list.slice(start, adjustedStop)`. -/
def lrange (s : DBState α) (k : String) (start stop : Int) : List α :=
  match s.list k with
  | none => []
  | some l =>
      let adjustedStop : Int :=
        if stop < 0 then (l.length : Int) + stop + 1 else stop + 1
      jsSlice l start adjustedStop

/-- Source `del(key)`: delete the key's record from the `keyValue`, `hash` and
`list` partitions (three store-local transactions); the `expiry` partition is
not touched. -/
def del (s : DBState α) (k : String) : DBState α :=
  ⟨s.keyValue.remove k, s.hash.remove k, s.list.remove k, s.expiry⟩

/-- Source `_setExpiry(key, expireAt)`: upsert the `{key, expireAt}` record in the
`expiry` partition. -/
def setExpiry (s : DBState α) (k : String) (expireAt : Int) : DBState α :=
  ⟨s.keyValue, s.hash, s.list, s.expiry.put k expireAt⟩

/-- Source `_removeExpiry(key)`: delete the expiry record for `key` (no-op when
absent). -/
def removeExpiry (s : DBState α) (k : String) : DBState α :=
  ⟨s.keyValue, s.hash, s.list, s.expiry.remove k⟩

/-- Source `expire(key, seconds)`: compute `expireAt = Date.now() + seconds * 1000`,
persist it via `_setExpiry`, then post `{key, expireAt}` to the worker (the
scheduling side is modelled by `workerOnMessage` below). -/
def expire (s : DBState α) (k : String) (seconds now : Int) : DBState α :=
  setExpiry s k (now + seconds * 1000)

/-- The engine's `worker.onmessage` handler: on a `{key, action}` message with
`action === 'delete'`, await `del(key)` then `_removeExpiry(key)`; any other
action leaves the state unchanged. -/
def workerOnMessage (s : DBState α) (key action : String) : DBState α :=
  if action = "delete" then removeExpiry (del s key) key else s

/-- The state after the worker's timer for `k` fires: the worker posts
`{key, action: 'delete'}` and the handler runs. -/
def onExpired (s : DBState α) (k : String) : DBState α :=
  workerOnMessage s k "delete"

/-- Computes `Math.ceil(d / n)` for integers `d` and positive `n`, as computed by
`ttl` on the millisecond difference with `n = 1000`. -/
def jsCeilDiv (d n : Int) : Int :=
  Int.fdiv (d + n - 1) n

/-- Source `_checkKeyExists(key)`: `store.count(key) > 0` on each of `keyValue`,
`hash`, `list` in turn; true when any partition holds a record at `key`. -/
def checkKeyExists (s : DBState α) (k : String) : Bool :=
  decide (0 < s.keyValue.count k) || decide (0 < s.hash.count k) ||
    decide (0 < s.list.count k)

/-- Source `ttl(key)`: when no expiry record exists, resolve `-1` if
`_checkKeyExists(key)` and `-2` otherwise; when a record exists, compute
`Math.ceil((expireAt - Date.now()) / 1000)` and resolve it when positive,
`-2` otherwise. -/
def ttl (s : DBState α) (k : String) (now : Int) : Int :=
  match s.expiry k with
  | none => if checkKeyExists s k then -1 else -2
  | some expireAt =>
      let remainingTime := jsCeilDiv (expireAt - now) 1000
      if 0 < remainingTime then remainingTime else -2

end MindexDB

/-! ## Helper lemmas -/

/-- The `jsCeilDiv` computation used by `ttl` is the mathematical ceiling of
the exact quotient. -/
theorem MindexDB.jsCeilDiv_eq_ceil (d : Int) :
    MindexDB.jsCeilDiv d 1000 = ⌈(d : ℚ) / 1000⌉ := by
  have h1 : MindexDB.jsCeilDiv d 1000 = (d + 999) / 1000 := by
    unfold MindexDB.jsCeilDiv
    rw [show d + 1000 - 1 = d + 999 by ring]
    exact Int.fdiv_eq_ediv _ (by norm_num)
  have h3 : ⌊(((-d : Int)) : ℚ) / ((1000 : ℕ) : ℚ)⌋ = (-d) / (1000 : ℤ) :=
    Rat.floor_intCast_div_natCast (-d) 1000
  have h2 : ⌊(((-d : Int)) : ℚ) / ((1000 : ℕ) : ℚ)⌋ = -⌈(d : ℚ) / 1000⌉ := by
    rw [show (((-d : Int)) : ℚ) / ((1000 : ℕ) : ℚ) = -((d : ℚ) / 1000) by
      push_cast; ring]
    exact Int.floor_neg
  rw [h1]
  omega

/-- A full-range read: `lrange(k, 0, -1)` returns the stored list. -/
theorem MindexDB.lrange_zero_negOne (s : DBState α) (k : String) (l : List α)
    (h : s.list k = some l) : MindexDB.lrange s k 0 (-1) = l := by
  unfold MindexDB.lrange
  rw [h]
  simp only [MindexDB.jsSlice]
  norm_num
  rw [if_neg (by omega : ¬ ((l.length : Int) < 0))]
  omega

/-- The predicate `checkKeyExists` is true exactly when some value store holds a record. -/
theorem MindexDB.checkKeyExists_iff (s : DBState α) (k : String) :
    MindexDB.checkKeyExists s k = true ↔
      s.keyValue k ≠ none ∨ s.hash k ≠ none ∨ s.list k ≠ none := by
  unfold MindexDB.checkKeyExists Store.count
  rcases hkv : s.keyValue k <;> rcases hh : s.hash k <;> rcases hl : s.list k <;>
    simp

/-! ## Claim theorems -/

/-- Claim C9: for every key `k` and value `v`, `set(k, v)` followed by
`get(k)` returns `v`, and `set` touches only the `keyValue` store — the
`hash`, `list` and `expiry` stores are unchanged. -/
theorem MindexDB.set_then_get (s : DBState α) (k : String) (v : α) :
    MindexDB.get (MindexDB.set s k v) k = some v ∧
    (MindexDB.set s k v).hash = s.hash ∧
    (MindexDB.set s k v).list = s.list ∧
    (MindexDB.set s k v).expiry = s.expiry := by
  refine ⟨?_, rfl, rfl, rfl⟩
  simp [MindexDB.get, MindexDB.set, Store.put]

/-- Claim C3: `del(k)` removes `k` from the scalar, hash and list stores —
afterwards `get(k)` is absent, `hget(k, f)` is null for every field `f`, and
`lrange(k, start, stop)` is empty for all bounds — while the expiry store is
left unchanged: `del` by itself never removes `k`'s expiry record. -/
theorem MindexDB.del_clears_values_keeps_expiry (s : DBState α)
    (k f : String) (start stop : Int) :
    MindexDB.get (MindexDB.del s k) k = none ∧
    MindexDB.hget (MindexDB.del s k) k f = none ∧
    MindexDB.lrange (MindexDB.del s k) k start stop = [] ∧
    (MindexDB.del s k).expiry = s.expiry := by
  refine ⟨?_, ?_, ?_, rfl⟩ <;>
    simp [MindexDB.get, MindexDB.hget, MindexDB.lrange, MindexDB.del,
      Store.remove]

/-- Claim C4: when the worker's timer for `k` fires it posts a
`(key, delete)` message; the engine's handler calls `del(k)` followed by
`removeExpiry(k)`, and after the handler completes `k` is absent from all
three value stores and from the expiry store. -/
theorem MindexDB.onExpired_removes_key (s : DBState α) (k : String) :
    MindexDB.onExpired s k = MindexDB.removeExpiry (MindexDB.del s k) k ∧
    (MindexDB.onExpired s k).keyValue k = none ∧
    (MindexDB.onExpired s k).hash k = none ∧
    (MindexDB.onExpired s k).list k = none ∧
    (MindexDB.onExpired s k).expiry k = none := by
  refine ⟨?_, ?_, ?_, ?_, ?_⟩ <;>
    simp [MindexDB.onExpired, MindexDB.workerOnMessage, MindexDB.removeExpiry,
      MindexDB.del, Store.remove]

/-- Claim C8: `hget(h, f)` returns null whenever the hash record at `h` is
absent or exists but does not contain field `f` (a total function of the
state — both cases are normal "not found" outcomes, not errors); and after
`hset(h, f, v)`, `hget(h, f)` returns `v`. -/
theorem MindexDB.hget_hset_correct (s : DBState α) (h f : String) (v : α) :
    (s.hash h = none → MindexDB.hget s h f = none) ∧
    (∀ obj, s.hash h = some obj → obj f = none → MindexDB.hget s h f = none) ∧
    MindexDB.hget (MindexDB.hset s h f v) h f = some v := by
  refine ⟨?_, ?_, ?_⟩
  · intro hh
    simp [MindexDB.hget, hh]
  · intro obj hh hf
    simp [MindexDB.hget, hh, hf]
  · simp [MindexDB.hget, MindexDB.hset, Store.put]

theorem MindexDB.hget_hset_correct_witness :
    MindexDB.hget (DBState.empty Nat) "h" "f" = none ∧
    MindexDB.hget (MindexDB.hset (DBState.empty Nat) "h" "g" 9) "h" "f" = none ∧
    MindexDB.hget (MindexDB.hset (DBState.empty Nat) "h" "f" 5) "h" "f" = some 5 := by
  refine ⟨?_, ?_, ?_⟩
  · exact (MindexDB.hget_hset_correct (DBState.empty Nat) "h" "f" 5).1 rfl
  · exact (MindexDB.hget_hset_correct
      (MindexDB.hset (DBState.empty Nat) "h" "g" 9) "h" "f" 5).2.1
      (Store.put (fun _ => none) "g" 9) (by simp [MindexDB.hset, Store.put, DBState.empty])
      (by simp [Store.put])
  · exact (MindexDB.hget_hset_correct (DBState.empty Nat) "h" "f" 5).2.2

/-- The state reached by `set("k", 7)` followed by `expire("k", 0)` at
`now = 0`: the record `{key: "k", expireAt: 0}` is persisted and the timer
message has been posted to the worker, but the worker's delete event has not
yet been handled. -/
def expiredPending : DBState Nat :=
  MindexDB.expire (MindexDB.set (DBState.empty Nat) "k" 7) "k" 0 0

/-- Claim C1 counterexample: at `now = 10` the key "k" carries an expiry
record with `expireAt = 0 ≤ now` — `ttl` itself reports the key as expired —
yet the read path observes the value as live data: `get("k")` returns `7`
and the expiry record is still present.  No read-path operation performs
lazy expiry. -/
theorem MindexDB.no_lazy_expiry :
    expiredPending.expiry "k" = some 0 ∧
    MindexDB.ttl expiredPending "k" 10 = -2 ∧
    MindexDB.get expiredPending "k" = some 7 := by
  refine ⟨?_, ?_, ?_⟩ <;>
    simp [expiredPending, MindexDB.expire, MindexDB.setExpiry, MindexDB.set,
      MindexDB.get, MindexDB.ttl, MindexDB.jsCeilDiv, Store.put, DBState.empty]

/-- Claim C1 (amended): the read-path operations neither consult nor modify
the expiry store — `get`, `hget`, `lrange` and the value returned by
`lpop`/`rpop` are unchanged under an arbitrary replacement of the expiry
store, `lpop`/`rpop` leave the expiry store untouched — and an expired key's
value and expiry record are removed only by the worker's delete event. -/
theorem MindexDB.reads_ignore_expiry (s : DBState α) (e : Store Int)
    (k f : String) (start stop : Int) :
    MindexDB.get ⟨s.keyValue, s.hash, s.list, e⟩ k = MindexDB.get s k ∧
    MindexDB.hget ⟨s.keyValue, s.hash, s.list, e⟩ k f = MindexDB.hget s k f ∧
    MindexDB.lrange ⟨s.keyValue, s.hash, s.list, e⟩ k start stop =
      MindexDB.lrange s k start stop ∧
    (MindexDB.lpop ⟨s.keyValue, s.hash, s.list, e⟩ k).1 =
      (MindexDB.lpop s k).1 ∧
    (MindexDB.rpop ⟨s.keyValue, s.hash, s.list, e⟩ k).1 =
      (MindexDB.rpop s k).1 ∧
    (MindexDB.lpop s k).2.expiry = s.expiry ∧
    (MindexDB.rpop s k).2.expiry = s.expiry ∧
    (MindexDB.onExpired s k).keyValue k = none ∧
    (MindexDB.onExpired s k).hash k = none ∧
    (MindexDB.onExpired s k).list k = none ∧
    (MindexDB.onExpired s k).expiry k = none := by
  refine ⟨rfl, rfl, rfl, ?_, ?_, ?_, ?_, ?_, ?_, ?_, ?_⟩
  · rcases hl : s.list k with _ | (_ | ⟨x, xs⟩) <;> simp [MindexDB.lpop, hl]
  · rcases hl : s.list k with _ | l
    · simp [MindexDB.rpop, hl]
    · simp only [MindexDB.rpop, hl]
      split <;> rfl
  · rcases hl : s.list k with _ | (_ | ⟨x, xs⟩) <;> simp [MindexDB.lpop, hl]
  · rcases hl : s.list k with _ | l
    · simp [MindexDB.rpop, hl]
    · simp only [MindexDB.rpop, hl]
      split <;> rfl
  all_goals
    simp [MindexDB.onExpired, MindexDB.workerOnMessage, MindexDB.removeExpiry,
      MindexDB.del, Store.remove]

/-- Claim C6: `lpush(k, a, b, c)` prepends its arguments as a block in the
given order — a subsequent `lrange(k, 0, -1)` reads `[a, b, c]` followed by
the prior contents, with `a` at index 0 — and returns the new length; on an
absent key, `rpush(k, a, b, c)` makes `lrange(k, 0, -1)` read `[a, b, c]`
and returns the new length 3. -/
theorem MindexDB.push_correct (s : DBState α) (k : String) (a b c : α) :
    MindexDB.lrange (MindexDB.lpush s k [a, b, c]).2 k 0 (-1) =
      a :: b :: c :: (s.list k).getD [] ∧
    (MindexDB.lpush s k [a, b, c]).1 = ((s.list k).getD []).length + 3 ∧
    (s.list k = none →
       MindexDB.lrange (MindexDB.rpush s k [a, b, c]).2 k 0 (-1) = [a, b, c] ∧
       (MindexDB.rpush s k [a, b, c]).1 = 3) := by
  refine ⟨?_, ?_, ?_⟩
  · have h := MindexDB.lrange_zero_negOne (MindexDB.lpush s k [a, b, c]).2 k
      ([a, b, c] ++ (s.list k).getD [])
      (by simp [MindexDB.lpush, Store.put])
    simpa using h
  · simp [MindexDB.lpush]
  · intro hnone
    constructor
    · have h := MindexDB.lrange_zero_negOne (MindexDB.rpush s k [a, b, c]).2 k
        ((s.list k).getD [] ++ [a, b, c])
        (by simp [MindexDB.rpush, Store.put])
      rw [hnone] at h
      simpa using h
    · simp [MindexDB.rpush, hnone]

theorem MindexDB.push_correct_witness :
    MindexDB.lrange
        (MindexDB.lpush (DBState.empty Nat) "k" [1, 2, 3]).2 "k" 0 (-1) =
      [1, 2, 3] ∧
    MindexDB.lrange
        (MindexDB.rpush (DBState.empty Nat) "k" [1, 2, 3]).2 "k" 0 (-1) =
      [1, 2, 3] ∧
    (MindexDB.rpush (DBState.empty Nat) "k" [1, 2, 3]).1 = 3 := by
  have h := MindexDB.push_correct (DBState.empty Nat) "k" 1 2 3
  refine ⟨by simpa using h.1, (h.2.2 rfl).1, (h.2.2 rfl).2⟩

/-- Claim C7: `lpop(k)` and `rpop(k)` on an absent or empty list return null
and leave the state unchanged (no write); on a non-empty list they remove
and return exactly the first (`lpop`) / last (`rpop`) element and write back
a list one element shorter. -/
theorem MindexDB.pop_correct (s : DBState α) (k : String) :
    ((s.list k = none ∨ s.list k = some []) →
       MindexDB.lpop s k = (none, s) ∧ MindexDB.rpop s k = (none, s)) ∧
    (∀ x xs, s.list k = some (x :: xs) →
       (MindexDB.lpop s k).1 = some x ∧
       (MindexDB.lpop s k).2.list k = some xs ∧
       xs.length = (x :: xs).length - 1) ∧
    (∀ x xs, s.list k = some (x :: xs) →
       (MindexDB.rpop s k).1 = (x :: xs).getLast? ∧
       (MindexDB.rpop s k).2.list k = some (x :: xs).dropLast ∧
       (x :: xs).dropLast.length = (x :: xs).length - 1) := by
  refine ⟨?_, ?_, ?_⟩
  · rintro (hl | hl) <;> simp [MindexDB.lpop, MindexDB.rpop, hl]
  · intro x xs hl
    simp [MindexDB.lpop, hl, Store.put]
  · intro x xs hl
    simp [MindexDB.rpop, hl, Store.put]

theorem MindexDB.pop_correct_witness :
    MindexDB.lpop (DBState.empty Nat) "k" = (none, DBState.empty Nat) ∧
    MindexDB.rpop (DBState.empty Nat) "k" = (none, DBState.empty Nat) ∧
    (MindexDB.lpop (MindexDB.rpush (DBState.empty Nat) "k" [1, 2]).2 "k").1 =
      some 1 ∧
    (MindexDB.lpop
        (MindexDB.rpush (DBState.empty Nat) "k" [1, 2]).2 "k").2.list "k" =
      some [2] ∧
    (MindexDB.rpop (MindexDB.rpush (DBState.empty Nat) "k" [1, 2]).2 "k").1 =
      some 2 ∧
    (MindexDB.rpop
        (MindexDB.rpush (DBState.empty Nat) "k" [1, 2]).2 "k").2.list "k" =
      some [1] := by
  have h0 := MindexDB.pop_correct (DBState.empty Nat) "k"
  have h1 := MindexDB.pop_correct (MindexDB.rpush (DBState.empty Nat) "k" [1, 2]).2 "k"
  have hl : (MindexDB.rpush (DBState.empty Nat) "k" [1, 2]).2.list "k" =
      some [1, 2] := by
    simp [MindexDB.rpush, Store.put, DBState.empty]
  refine ⟨(h0.1 (Or.inl rfl)).1, (h0.1 (Or.inl rfl)).2, ?_, ?_, ?_, ?_⟩
  · exact (h1.2.1 1 [2] hl).1
  · exact (h1.2.1 1 [2] hl).2.1
  · simpa using (h1.2.2 1 [2] hl).1
  · simpa using (h1.2.2 1 [2] hl).2.1

/-- Claim C10: popping the last remaining element (`lpop` or `rpop` on a
one-element list) writes back an empty array rather than deleting the list
record, so the key still exists: `_checkKeyExists` counts it, `ttl` without
an expiry record returns `-1` (not `-2`), and `lrange(k, 0, -1)` returns
`[]`. -/
theorem MindexDB.pop_last_keeps_key (s : DBState α) (k : String) (x : α)
    (now : Int) (hl : s.list k = some [x]) (he : s.expiry k = none) :
    (MindexDB.lpop s k).2.list k = some [] ∧
    MindexDB.checkKeyExists (MindexDB.lpop s k).2 k = true ∧
    MindexDB.ttl (MindexDB.lpop s k).2 k now = -1 ∧
    MindexDB.lrange (MindexDB.lpop s k).2 k 0 (-1) = [] ∧
    (MindexDB.rpop s k).2.list k = some [] ∧
    MindexDB.checkKeyExists (MindexDB.rpop s k).2 k = true ∧
    MindexDB.ttl (MindexDB.rpop s k).2 k now = -1 ∧
    MindexDB.lrange (MindexDB.rpop s k).2 k 0 (-1) = [] := by
  have hpl : (MindexDB.lpop s k).2.list k = some [] := by
    simp [MindexDB.lpop, hl, Store.put]
  have hpr : (MindexDB.rpop s k).2.list k = some [] := by
    simp [MindexDB.rpop, hl, Store.put]
  have hel : (MindexDB.lpop s k).2.expiry k = none := by
    simp [MindexDB.lpop, hl, he]
  have her : (MindexDB.rpop s k).2.expiry k = none := by
    simp [MindexDB.rpop, hl, he]
  have hcl : MindexDB.checkKeyExists (MindexDB.lpop s k).2 k = true := by
    rw [MindexDB.checkKeyExists_iff]
    exact Or.inr (Or.inr (by rw [hpl]; exact fun h => Option.noConfusion h))
  have hcr : MindexDB.checkKeyExists (MindexDB.rpop s k).2 k = true := by
    rw [MindexDB.checkKeyExists_iff]
    exact Or.inr (Or.inr (by rw [hpr]; exact fun h => Option.noConfusion h))
  refine ⟨hpl, hcl, ?_, ?_, hpr, hcr, ?_, ?_⟩
  · simp [MindexDB.ttl, hel, hcl]
  · exact MindexDB.lrange_zero_negOne _ _ _ hpl
  · simp [MindexDB.ttl, her, hcr]
  · exact MindexDB.lrange_zero_negOne _ _ _ hpr

theorem MindexDB.pop_last_keeps_key_witness :
    (MindexDB.lpop (MindexDB.rpush (DBState.empty Nat) "k" [5]).2 "k").2.list
        "k" = some [] ∧
    MindexDB.ttl
        (MindexDB.lpop
          (MindexDB.rpush (DBState.empty Nat) "k" [5]).2 "k").2 "k" 0 = -1 ∧
    MindexDB.lrange
        (MindexDB.lpop
          (MindexDB.rpush (DBState.empty Nat) "k" [5]).2 "k").2 "k" 0 (-1) =
      [] := by
  have h := MindexDB.pop_last_keeps_key
    (MindexDB.rpush (DBState.empty Nat) "k" [5]).2 "k" 5 0
    (by simp [MindexDB.rpush, Store.put, DBState.empty])
    (by simp [MindexDB.rpush, Store.put, DBState.empty])
  exact ⟨h.1, h.2.2.1, h.2.2.2.1⟩

/-- Claim C2: `ttl(k)` returns `-2` when `k` has no expiry record and no
value in any of the three value stores; `-1` when `k` has no expiry record
but holds a value in some value store; and when an expiry record
`{key: k, expireAt}` exists it returns `⌈(expireAt - now) / 1000⌉` when that
quantity is positive and `-2` when it is `≤ 0`. -/
theorem MindexDB.ttl_correct (s : DBState α) (k : String) (now : Int) :
    (s.expiry k = none → s.keyValue k = none → s.hash k = none →
       s.list k = none → MindexDB.ttl s k now = -2) ∧
    (s.expiry k = none →
       (s.keyValue k ≠ none ∨ s.hash k ≠ none ∨ s.list k ≠ none) →
       MindexDB.ttl s k now = -1) ∧
    (∀ expireAt : Int, s.expiry k = some expireAt →
       (0 < ⌈((expireAt - now : Int) : ℚ) / 1000⌉ →
          MindexDB.ttl s k now = ⌈((expireAt - now : Int) : ℚ) / 1000⌉) ∧
       (⌈((expireAt - now : Int) : ℚ) / 1000⌉ ≤ 0 →
          MindexDB.ttl s k now = -2)) := by
  refine ⟨?_, ?_, ?_⟩
  · intro he hkv hh hl
    simp [MindexDB.ttl, he, MindexDB.checkKeyExists, Store.count, hkv, hh, hl]
  · intro he hex
    have hc : MindexDB.checkKeyExists s k = true :=
      (MindexDB.checkKeyExists_iff s k).mpr hex
    simp [MindexDB.ttl, he, hc]
  · intro expireAt he
    have hceil := MindexDB.jsCeilDiv_eq_ceil (expireAt - now)
    constructor
    · intro hpos
      simp only [MindexDB.ttl, he]
      rw [hceil, if_pos hpos]
    · intro hnp
      simp only [MindexDB.ttl, he]
      rw [hceil, if_neg (by omega)]

theorem MindexDB.ttl_correct_witness :
    MindexDB.ttl (DBState.empty Nat) "a" 0 = -2 ∧
    MindexDB.ttl (MindexDB.set (DBState.empty Nat) "a" 7) "a" 0 = -1 ∧
    MindexDB.ttl (MindexDB.setExpiry (DBState.empty Nat) "a" 2500) "a" 0 = 3 ∧
    MindexDB.ttl (MindexDB.setExpiry (DBState.empty Nat) "a" 0) "a" 10 = -2 := by
  refine ⟨?_, ?_, ?_, ?_⟩
  · exact (MindexDB.ttl_correct (DBState.empty Nat) "a" 0).1 rfl rfl rfl rfl
  · exact (MindexDB.ttl_correct (MindexDB.set (DBState.empty Nat) "a" 7)
      "a" 0).2.1 rfl
      (Or.inl (by simp [MindexDB.set, Store.put, DBState.empty]))
  · have hs : (MindexDB.setExpiry (DBState.empty Nat) "a" 2500).expiry "a" =
        some 2500 := by
      simp [MindexDB.setExpiry, Store.put, DBState.empty]
    have hv : ⌈(((2500 : Int) - 0 : Int) : ℚ) / 1000⌉ = 3 := by
      rw [← MindexDB.jsCeilDiv_eq_ceil]
      decide
    have h := ((MindexDB.ttl_correct (MindexDB.setExpiry (DBState.empty Nat)
      "a" 2500) "a" 0).2.2 2500 hs).1 (by rw [hv]; norm_num)
    rw [hv] at h
    exact h
  · have hs : (MindexDB.setExpiry (DBState.empty Nat) "a" 0).expiry "a" =
        some 0 := by
      simp [MindexDB.setExpiry, Store.put, DBState.empty]
    have hv : ⌈(((0 : Int) - 10 : Int) : ℚ) / 1000⌉ = 0 := by
      rw [← MindexDB.jsCeilDiv_eq_ceil]
      decide
    exact ((MindexDB.ttl_correct (MindexDB.setExpiry (DBState.empty Nat)
      "a" 0) "a" 10).2.2 0 hs).2 (by rw [hv])

/-- Claim C5 counterexample: for the stored one-element list `[5]`
(`L = 1`), `lrange("k", 0, -2)` returns `[]`, while `lrange` with
`stop = L + stop = -1` returns the whole list `[5]` — the negative-`stop`
equivalence fails once `L + stop` is itself negative, because the adjusted
bound is re-interpreted. -/
theorem MindexDB.lrange_negStop_shift_fails :
    (MindexDB.rpush (DBState.empty Nat) "k" [5]).2.list "k" = some [5] ∧
    MindexDB.lrange (MindexDB.rpush (DBState.empty Nat) "k" [5]).2 "k"
      0 (-2) = [] ∧
    MindexDB.lrange (MindexDB.rpush (DBState.empty Nat) "k" [5]).2 "k"
      0 ((1 : Int) + (-2)) = [5] := by
  refine ⟨?_, ?_, ?_⟩ <;>
    simp [MindexDB.rpush, MindexDB.lrange, MindexDB.jsSlice, Store.put,
      DBState.empty]

/-- Claim C5 (amended): for a stored list `l` of length `L`, a negative
`stop` with `0 ≤ L + stop` is equivalent to `stop = L + stop` (in
particular `lrange(k, 0, -1)` returns the whole list); the slice is
inclusive of `stop` (for `0 ≤ start ≤ stop < L` it returns the elements
from `start` to `stop` — `stop - start + 1` of them); a `stop` at or beyond
`L` clamps to the last element without erroring; and a `start` at or beyond
`L` yields an empty result. -/
theorem MindexDB.lrange_correct (s : DBState α) (k : String) (l : List α)
    (start stop : Int) (h : s.list k = some l) :
    (stop < 0 → 0 ≤ (l.length : Int) + stop →
       MindexDB.lrange s k start stop =
         MindexDB.lrange s k start ((l.length : Int) + stop)) ∧
    MindexDB.lrange s k 0 (-1) = l ∧
    (0 ≤ start → start ≤ stop → stop < (l.length : Int) →
       MindexDB.lrange s k start stop =
         (l.drop start.toNat).take (stop + 1 - start).toNat ∧
       (MindexDB.lrange s k start stop).length = (stop + 1 - start).toNat) ∧
    ((l.length : Int) ≤ stop →
       MindexDB.lrange s k start stop =
         MindexDB.lrange s k start ((l.length : Int) - 1)) ∧
    ((l.length : Int) ≤ start →
       MindexDB.lrange s k start stop = []) := by
  have hsome : ∀ st : Int, MindexDB.lrange s k start st =
      MindexDB.jsSlice l start
        (if st < 0 then (l.length : Int) + st + 1 else st + 1) := by
    intro st
    unfold MindexDB.lrange
    rw [h]
  refine ⟨?_, MindexDB.lrange_zero_negOne s k l h, ?_, ?_, ?_⟩
  · intro hneg hok
    rw [hsome stop, hsome ((l.length : Int) + stop)]
    rw [if_pos hneg, if_neg (by omega : ¬ ((l.length : Int) + stop < 0))]
  · intro h0 hss hsl
    have hmain : MindexDB.lrange s k start stop =
        (l.drop start.toNat).take (stop + 1 - start).toNat := by
      rw [hsome stop]
      rw [if_neg (by omega : ¬ stop < 0)]
      simp only [MindexDB.jsSlice]
      rw [if_neg (by omega : ¬ start < 0),
        if_neg (by omega : ¬ (stop + 1 : Int) < 0)]
      rw [List.drop_take]
      rw [show (min (stop + 1) (l.length : Int)).toNat -
            (min start (l.length : Int)).toNat = (stop + 1 - start).toNat by
          omega,
        show (min start (l.length : Int)).toNat = start.toNat by omega]
    refine ⟨hmain, ?_⟩
    rw [hmain]
    rw [List.length_take, List.length_drop]
    omega
  · intro hstop
    rw [hsome stop, hsome ((l.length : Int) - 1)]
    rw [if_neg (by omega : ¬ stop < 0)]
    by_cases h0 : (l.length : Int) - 1 < 0
    · have hnil : l = [] := by
        cases l with
        | nil => rfl
        | cons a as =>
            simp at h0
            omega
      subst hnil
      simp [MindexDB.jsSlice]
    · rw [if_neg h0]
      simp only [MindexDB.jsSlice]
      rw [if_neg (by omega : ¬ (stop + 1 : Int) < 0),
        if_neg (by omega : ¬ ((l.length : Int) - 1 + 1 < 0))]
      rw [show (min (stop + 1) (l.length : Int)).toNat =
            (min ((l.length : Int) - 1 + 1) (l.length : Int)).toNat by omega]
  · intro hstart
    rw [hsome stop]
    simp only [MindexDB.jsSlice]
    rw [if_neg (by omega : ¬ start < 0)]
    apply List.drop_eq_nil_of_le
    refine le_trans ?_
      (by omega : l.length ≤ (min start (l.length : Int)).toNat)
    rw [List.length_take]
    exact min_le_right _ _

theorem MindexDB.lrange_correct_witness :
    MindexDB.lrange (MindexDB.rpush (DBState.empty Nat) "k" [1, 2, 3]).2 "k"
      0 (-2) =
      MindexDB.lrange (MindexDB.rpush (DBState.empty Nat) "k" [1, 2, 3]).2 "k"
        0 ((3 : Int) + (-2)) ∧
    MindexDB.lrange (MindexDB.rpush (DBState.empty Nat) "k" [1, 2, 3]).2 "k"
      0 (-1) = [1, 2, 3] ∧
    MindexDB.lrange (MindexDB.rpush (DBState.empty Nat) "k" [1, 2, 3]).2 "k"
      1 1 = [2] ∧
    MindexDB.lrange (MindexDB.rpush (DBState.empty Nat) "k" [1, 2, 3]).2 "k"
      0 10 =
      MindexDB.lrange (MindexDB.rpush (DBState.empty Nat) "k" [1, 2, 3]).2 "k"
        0 ((3 : Int) - 1) ∧
    MindexDB.lrange (MindexDB.rpush (DBState.empty Nat) "k" [1, 2, 3]).2 "k"
      5 10 = [] := by
  have hl : (MindexDB.rpush (DBState.empty Nat) "k" [1, 2, 3]).2.list "k" =
      some [1, 2, 3] := by
    simp [MindexDB.rpush, Store.put, DBState.empty]
  refine ⟨?_, ?_, ?_, ?_, ?_⟩
  · exact ((MindexDB.lrange_correct _ "k" [1, 2, 3] 0 (-2) hl).1
      (by norm_num) (by norm_num))
  · exact (MindexDB.lrange_correct _ "k" [1, 2, 3] 0 (-1) hl).2.1
  · have h := ((MindexDB.lrange_correct _ "k" [1, 2, 3] 1 1 hl).2.2.1
      (by norm_num) (by norm_num) (by norm_num)).1
    simpa using h
  · exact (MindexDB.lrange_correct _ "k" [1, 2, 3] 0 10 hl).2.2.2.1
      (by norm_num)
  · exact (MindexDB.lrange_correct _ "k" [1, 2, 3] 5 10 hl).2.2.2.2
      (by norm_num)
